import Mathlib

/-!
Verification of the SpaCy POS tagging service
(`backend/python-scripts/spacy-llm.py`).

The development shallowly embeds the three pieces of the script:

* the Trimmer `trim_sentence_with_occurrence` (a pure function on strings),
* the Extractor `extract_pos_tags` (a single pass over annotated tokens,
  with the external spaCy annotator `nlp` abstracted as a parameter
  producing a `Doc` of tokens and sentences),
* the transcript selection of `main` (with `json.loads` + `.get` abstracted
  as a parameter).

Python strings are modelled as Lean `String`s, with the `str` methods used
by the script (`split()`, `strip()`, `strip(chars)`, `lower()`,
`startswith`) re-implemented over the underlying character lists so that
every definition evaluates by kernel reduction.  Python `int` arithmetic in
the Trimmer is modelled on `Nat`; the only intermediate value that can be
negative in Python is `remaining` (always ≥ -1 there), and it is consumed
solely through the guard `remaining > 0`, so truncating subtraction agrees
with the source.
-/

namespace SpacyLLM

/-- Python `s.lower()`, character by character (ASCII case folding). -/
def pyLower (s : String) : String :=
  (s.data.map Char.toLower).asString

/-- Python `s.strip(chars)`: drop characters of `cs` from both ends. -/
def pyStripChars (cs : List Char) (s : String) : String :=
  (((s.data.dropWhile (cs.contains ·)).reverse.dropWhile (cs.contains ·)).reverse).asString

/-- Python `s.strip()` with no argument: drop whitespace from both ends. -/
def pyStripWS (s : String) : String :=
  (((s.data.dropWhile Char.isWhitespace).reverse.dropWhile Char.isWhitespace).reverse).asString

/-- The punctuation characters of the Python literal used at lines 48 and 52
of the script: period, comma, bang, question mark, semicolon, colon, round,
square and curly brackets, double quote and apostrophe.  The last four are
spelled via their code points. -/
def punct_chars : List Char :=
  ['.', ',', '!', '?', ';', ':', '(', ')', '[', ']',
   Char.ofNat 123, Char.ofNat 125, Char.ofNat 34, Char.ofNat 39]

/-- Helper for `pySplit`: scans the characters, accumulating the current
word (reversed) in `acc`, emitting it at each whitespace run. -/
def splitWsAux : List Char → List Char → List String
  | [], acc => if acc.isEmpty then [] else [acc.reverse.asString]
  | c :: cs, acc =>
    if c.isWhitespace then
      if acc.isEmpty then splitWsAux cs [] else acc.reverse.asString :: splitWsAux cs []
    else splitWsAux cs (c :: acc)

/-- Python `s.split()` with no argument: split on runs of whitespace,
discarding empty pieces. -/
def pySplit (s : String) : List String :=
  splitWsAux s.data []

/-- Python `s.startswith(pre)`. -/
def pyStartsWith (s pre : String) : Bool :=
  pre.data.isPrefixOf s.data

/-- Normalization `word.lower().strip(punctuation)` applied to the
occurrence word (line 48) and to each candidate word (line 52). -/
def clean_word (w : String) : String :=
  pyStripChars punct_chars (pyLower w)

/-- The combined per-word match test of the loop at lines 50-62: the word
matches the (already cleaned) occurrence if the cleaned forms are equal, or
if the cleaned lengths differ by at most 2 and one cleaned string is a
prefix of the other. -/
def word_matches (occurrence_clean w : String) : Bool :=
  let word_clean := clean_word w
  decide (word_clean = occurrence_clean) ||
    (decide (((word_clean.length : Int) - (occurrence_clean.length : Int)).natAbs ≤ 2) &&
      (pyStartsWith occurrence_clean word_clean || pyStartsWith word_clean occurrence_clean))

/-- The search loop at lines 50-62 of `trim_sentence_with_occurrence`,
with the running index made explicit.  A single left-to-right pass: at each
word the exact comparison is tried first (`if`), then the fuzzy
length/affix comparison (`elif`); the first word satisfying either test
stops the loop.  Python's `-1` sentinel becomes `none`. -/
def find_occurrence_pos_aux (occurrence_clean : String) : List String → Nat → Option Nat
  | [], _ => none
  | word :: rest, i =>
    let word_clean := clean_word word
    if word_clean = occurrence_clean then some i
    else if ((word_clean.length : Int) - (occurrence_clean.length : Int)).natAbs ≤ 2 ∧
        (pyStartsWith occurrence_clean word_clean || pyStartsWith word_clean occurrence_clean) then
      some i
    else find_occurrence_pos_aux occurrence_clean rest (i + 1)

/-- Position of the occurrence word among `words` (lines 49-62). -/
def find_occurrence_pos (words : List String) (occurrence_clean : String) : Option Nat :=
  find_occurrence_pos_aux occurrence_clean words 0

/-- The window computation at lines 70-84, as `(start, end)` indices into
the word list of length `n` with the match at `occurrence_pos`.
Python's `remaining` is ≥ -1 (so the truncated `Nat` subtraction agrees
with the source through the `remaining > 0` guard), and `occurrence_pos`,
`n - occurrence_pos - 1` always dominate `words_before`, `words_after`
respectively, so the remaining `Nat` subtractions are exact; Python's
`max(0, ...)` on `start` is the clamping already performed by `Nat`
subtraction. -/
def trim_window (n occurrence_pos max_words : Nat) : Nat × Nat :=
  let words_before := min occurrence_pos (max_words / 2)
  let words_after := min (n - occurrence_pos - 1) (max_words / 2)
  let remaining := max_words - (words_before + words_after + 1)
  let grown :=
    if 0 < remaining then
      let extra_before := min (occurrence_pos - words_before) (remaining / 2)
      let extra_after := min (n - occurrence_pos - 1 - words_after) (remaining - extra_before)
      (words_before + extra_before, words_after + extra_after)
    else (words_before, words_after)
  (occurrence_pos - grown.1, min n (occurrence_pos + grown.2 + 1))

/-- The Trimmer `trim_sentence_with_occurrence` (lines 26-86): trim a sentence to a
window of words around the occurrence word.  Identity if the sentence has
at most `max_words` words; first `max_words` words if the occurrence is not
located; otherwise the window around the matched position. -/
def trim_sentence_with_occurrence (sentence occurrence_word : String)
    (max_words : Nat := 20) : String :=
  let words := pySplit sentence
  if words.length ≤ max_words then
    sentence
  else
    let occurrence_clean := clean_word occurrence_word
    match find_occurrence_pos words occurrence_clean with
    | none => String.intercalate " " (words.take max_words)
    | some occurrence_pos =>
      let se := trim_window words.length occurrence_pos max_words
      String.intercalate " " ((words.take se.2).drop se.1)

/-! ### Helper lemmas about the Trimmer -/

theorem find_occurrence_pos_aux_lt (occurrence_clean : String) :
    ∀ (ws : List String) (i p : Nat),
      find_occurrence_pos_aux occurrence_clean ws i = some p → p < i + ws.length := by
  intro ws
  induction ws with
  | nil => intro i p h; simp [find_occurrence_pos_aux] at h
  | cons w rest ih =>
    intro i p h
    simp only [find_occurrence_pos_aux] at h
    split at h
    · injection h with h; simp [List.length_cons]; omega
    · split at h
      · injection h with h; simp [List.length_cons]; omega
      · have := ih (i + 1) p h
        simp [List.length_cons]; omega

/-- A located occurrence position is a valid index into the word list. -/
theorem find_occurrence_pos_lt (words : List String) (occurrence_clean : String) (p : Nat)
    (h : find_occurrence_pos words occurrence_clean = some p) : p < words.length := by
  have := find_occurrence_pos_aux_lt occurrence_clean words 0 p h
  omega

theorem trim_window_start_le (n p mw : Nat) : (trim_window n p mw).1 ≤ p := by
  unfold trim_window
  exact Nat.sub_le _ _

theorem trim_window_snd_le (n p mw : Nat) : (trim_window n p mw).2 ≤ n := by
  unfold trim_window
  exact Nat.min_le_left _ _

theorem trim_window_lt_snd (n p mw : Nat) (h : p < n) : p < (trim_window n p mw).2 := by
  unfold trim_window
  refine Nat.lt_min.mpr ⟨h, ?_⟩
  omega

/-- Unfolding of the Trimmer in the long-sentence, occurrence-found case. -/
theorem trim_eq_of_found (sentence occurrence_word : String) (max_words p : Nat)
    (hlong : max_words < (pySplit sentence).length)
    (hfound : find_occurrence_pos (pySplit sentence) (clean_word occurrence_word) = some p) :
    trim_sentence_with_occurrence sentence occurrence_word max_words =
      String.intercalate " "
        (((pySplit sentence).take (trim_window (pySplit sentence).length p max_words).2).drop
          (trim_window (pySplit sentence).length p max_words).1) := by
  unfold trim_sentence_with_occurrence
  rw [if_neg (by omega)]
  simp only [hfound]

/-! ### Claims C1-C5 about the Trimmer -/

/-- Claim C1 (code bug): the spec and the function's own docstring promise
an output of at most `max_words` words whenever the input exceeds
`max_words`, but on a 25-word sentence with the target at position 12 and
`max_words = 20` the code computes `words_before = words_after = 10`,
`remaining = -1`, skips the growth step, and returns the slice `[2:23]` of
21 words — one more than the promised maximum. -/
theorem trim_output_exceeds_max_words :
    (pySplit (trim_sentence_with_occurrence
      "a00 a01 a02 a03 a04 a05 a06 a07 a08 a09 a10 a11 a12 a13 a14 a15 a16 a17 a18 a19 a20 a21 a22 a23 a24"
      "a12" 20)).length = 21 := by decide

/-- Claim C2 (counterexample): in `"ab abc xyz"` with target `"abc"` and
`max_words = 1`, word 1 (`"abc"`) is an exact normalized match and word 0
(`"ab"`) satisfies only the fuzzy rule, yet the code returns the window
around position 0 — the excerpt `"ab"` — because its single pass stops at
the first word matching either rule.  The claimed two-pass algorithm
(leftmost exact match wins whenever an exact match exists) would return
`"abc"`. -/
theorem trim_matches_earlier_fuzzy_over_exact :
    clean_word ((pySplit "ab abc xyz").getD 1 "") = clean_word "abc" ∧
    clean_word ((pySplit "ab abc xyz").getD 0 "") ≠ clean_word "abc" ∧
    trim_sentence_with_occurrence "ab abc xyz" "abc" 1 = "ab" := by decide

/-- Claim C2 (amended): the matcher is a single left-to-right pass; the
matched position is the index of the first word satisfying the exact rule
or the fuzzy rule, whichever word comes first — so an earlier fuzzy-only
word takes precedence over a later exact match. -/
theorem find_occurrence_pos_single_pass (words : List String) (occurrence_clean : String) :
    find_occurrence_pos words occurrence_clean =
      words.findIdx? (word_matches occurrence_clean) := by
  show find_occurrence_pos_aux occurrence_clean words 0 =
    words.findIdx? (word_matches occurrence_clean) 0
  generalize 0 = i
  induction words generalizing i with
  | nil => rfl
  | cons w rest ih =>
    simp only [find_occurrence_pos_aux, List.findIdx?_cons]
    by_cases hx : clean_word w = occurrence_clean
    · rw [if_pos hx,
        if_pos (show word_matches occurrence_clean w = true by simp [word_matches, hx])]
    · by_cases hf : ((clean_word w).length - (occurrence_clean.length : Int)).natAbs ≤ 2 ∧
          (pyStartsWith occurrence_clean (clean_word w) ||
            pyStartsWith (clean_word w) occurrence_clean) = true
      · rw [if_neg hx, if_pos hf,
          if_pos (show word_matches occurrence_clean w = true by
            simp [word_matches, hf.1, hf.2])]
      · have hwm : ¬ (word_matches occurrence_clean w = true) := by
          simp only [word_matches, Bool.or_eq_true, Bool.and_eq_true, decide_eq_true_eq]
          rintro (h | ⟨h1, h2⟩)
          · exact hx h
          · exact hf ⟨h1, by simpa using h2⟩
        rw [if_neg hx, if_neg hf, if_neg hwm, ih]

/-- Claim C3: a sentence of at most `max_words` whitespace-split words is
returned unchanged, whatever the target word. -/
theorem trim_identity (sentence occurrence_word : String) (max_words : Nat)
    (h : (pySplit sentence).length ≤ max_words) :
    trim_sentence_with_occurrence sentence occurrence_word max_words = sentence := by
  unfold trim_sentence_with_occurrence
  rw [if_pos h]

theorem trim_identity_witness :
    (pySplit "Der Hund schlaeft").length ≤ 20 ∧
    trim_sentence_with_occurrence "Der Hund schlaeft" "Hund" 20 = "Der Hund schlaeft" :=
  ⟨by decide, trim_identity "Der Hund schlaeft" "Hund" 20 (by decide)⟩

/-- Claim C4: on a long sentence in which the occurrence word is matched at
position `p`, the returned excerpt is the word slice `words[start:end]` with
`start ≤ p < end ≤ n` — the window always contains the matched position. -/
theorem trim_window_contains_match (sentence occurrence_word : String) (max_words p : Nat)
    (hlong : max_words < (pySplit sentence).length)
    (hfound : find_occurrence_pos (pySplit sentence) (clean_word occurrence_word) = some p) :
    ∃ s e, s ≤ p ∧ p < e ∧ e ≤ (pySplit sentence).length ∧
      trim_sentence_with_occurrence sentence occurrence_word max_words =
        String.intercalate " " (((pySplit sentence).take e).drop s) := by
  have hp : p < (pySplit sentence).length := find_occurrence_pos_lt _ _ _ hfound
  exact ⟨(trim_window (pySplit sentence).length p max_words).1,
    (trim_window (pySplit sentence).length p max_words).2,
    trim_window_start_le _ _ _,
    trim_window_lt_snd _ _ _ hp,
    trim_window_snd_le _ _ _,
    trim_eq_of_found sentence occurrence_word max_words p hlong hfound⟩

theorem trim_window_contains_match_witness :
    (2 < (pySplit "b00 b01 b02").length ∧
      find_occurrence_pos (pySplit "b00 b01 b02") (clean_word "b02") = some 2) ∧
    ∃ s e, s ≤ 2 ∧ 2 < e ∧ e ≤ (pySplit "b00 b01 b02").length ∧
      trim_sentence_with_occurrence "b00 b01 b02" "b02" 2 =
        String.intercalate " " (((pySplit "b00 b01 b02").take e).drop s) :=
  ⟨⟨by decide, by decide⟩,
    trim_window_contains_match "b00 b01 b02" "b02" 2 2 (by decide) (by decide)⟩

/-- Claim C5: the Trimmer is a total function; for every pair of string
inputs (and `max_words ≥ 1`) it resolves to one of the three defined
outcomes — the unchanged sentence, the first `max_words` words (unmatched
target), or a contiguous word slice (matched target) — never an error. -/
theorem trim_total_cases (sentence occurrence_word : String) (max_words : Nat)
    (hmw : 1 ≤ max_words) :
    trim_sentence_with_occurrence sentence occurrence_word max_words = sentence ∨
    trim_sentence_with_occurrence sentence occurrence_word max_words =
      String.intercalate " " ((pySplit sentence).take max_words) ∨
    ∃ s e, s ≤ e ∧ e ≤ (pySplit sentence).length ∧
      trim_sentence_with_occurrence sentence occurrence_word max_words =
        String.intercalate " " (((pySplit sentence).take e).drop s) := by
  by_cases h : (pySplit sentence).length ≤ max_words
  · left
    unfold trim_sentence_with_occurrence
    rw [if_pos h]
  · rcases hfind : find_occurrence_pos (pySplit sentence) (clean_word occurrence_word) with
      _ | p
    · right; left
      unfold trim_sentence_with_occurrence
      rw [if_neg h]
      simp only [hfind]
    · right; right
      have hp : p < (pySplit sentence).length := find_occurrence_pos_lt _ _ _ hfind
      refine ⟨(trim_window (pySplit sentence).length p max_words).1,
        (trim_window (pySplit sentence).length p max_words).2,
        le_trans (trim_window_start_le _ _ _) (le_of_lt (trim_window_lt_snd _ _ _ hp)),
        trim_window_snd_le _ _ _, ?_⟩
      exact trim_eq_of_found sentence occurrence_word max_words p (by omega) hfind

theorem trim_total_cases_witness :
    1 ≤ 1 ∧
    (trim_sentence_with_occurrence "c0 c1 c2" "zz" 1 = "c0 c1 c2" ∨
    trim_sentence_with_occurrence "c0 c1 c2" "zz" 1 =
      String.intercalate " " ((pySplit "c0 c1 c2").take 1) ∨
    ∃ s e, s ≤ e ∧ e ≤ (pySplit "c0 c1 c2").length ∧
      trim_sentence_with_occurrence "c0 c1 c2" "zz" 1 =
        String.intercalate " " (((pySplit "c0 c1 c2").take e).drop s)) :=
  ⟨le_refl 1, trim_total_cases "c0 c1 c2" "zz" 1 (le_refl 1)⟩

/-! ### The Extractor (`extract_pos_tags`, lines 89-223)

The spaCy annotator is external; it is abstracted as a function
`nlp : String → Doc` producing the document the script iterates over: the
token stream (`for token in doc`) and the sentence spans (`doc.sents`),
with tokens referred to inside a sentence by their position in the token
stream (modelling spaCy's `token in sent` membership test). -/

/-- One annotated token, as the script reads it: surface `text`,
lemma (`token.lemma_`), coarse POS tag (`token.pos_`, a string compared
against `"NOUN"`, `"VERB"`, `"ADJ"`), and the `is_punct` / `is_space`
flags. -/
structure Token where
  text : String
  lemma_ : String
  pos : String
  is_punct : Bool
  is_space : Bool

/-- One sentence span of `doc.sents`: its rendered text and the positions
(indices into the document's token stream) of the tokens it contains. -/
structure Sent where
  text : String
  toks : List Nat

/-- The annotator's output: the token stream and the sentence spans. -/
structure Doc where
  tokens : List Token
  sents : List Sent

/-- The loop at lines 143-147: scan `doc.sents` for the first sentence
containing the token (by its position `i`), returning that sentence's
stripped text. -/
def find_containing_sentence (sents : List Sent) (i : Nat) : Option String :=
  match sents with
  | [] => none
  | s :: rest => if i ∈ s.toks then some (pyStripWS s.text) else find_containing_sentence rest i

/-- Per-category accumulation state.  `lemmas` models the Python `set` of
lemmas (`nouns` / `verbs` / `adjectives`) as its list of first insertions;
`occ` maps each lemma to the pair (raw sentence texts already seen for it,
trimmed phrases collected for it).  The script keeps these per-lemma pairs
in two dictionaries (`*_original_sentences` and `*_occurrences`), but the
two are created together (lines 156-158) and updated together (lines
160-164), so their key sets always coincide; one association list holding
the pair is the same data. -/
structure CatState where
  lemmas : List String
  occ : List (String × List String × List String)

/-- Look up the first binding of `key` in an association list. -/
def alookup {α : Type} : List (String × α) → String → Option α
  | [], _ => none
  | (k, v) :: m, key => if k = key then some v else alookup m key

/-- Rewrite the value of the first binding of `key` with `f`. -/
def aupdate {α : Type} (f : α → α) : List (String × α) → String → List (String × α)
  | [], _ => []
  | (k, v) :: m, key => if k = key then (k, f v) :: m else (k, v) :: aupdate f m key

/-- One category branch of the dispatch (e.g. lines 153-164 for nouns):
add the lemma to the category's set; create its (seen, phrases) entry if
absent; then, if the containing sentence was not seen yet for this lemma,
record it and append the trimmed phrase. -/
def add_occurrence (c : CatState) (lemma_ sent tok_text : String) : CatState :=
  let lemmas := if lemma_ ∈ c.lemmas then c.lemmas else c.lemmas ++ [lemma_]
  let occ0 := if (alookup c.occ lemma_).isSome then c.occ else c.occ ++ [(lemma_, ([], []))]
  let occ :=
    match alookup occ0 lemma_ with
    | some (seen, _) =>
      if sent ∈ seen then occ0
      else aupdate
        (fun p => (p.1 ++ [sent], p.2 ++ [trim_sentence_with_occurrence sent tok_text 20]))
        occ0 lemma_
    | none => occ0
  ⟨lemmas, occ⟩

/-- The three per-category states of one extraction pass. -/
structure ExtractState where
  nouns : CatState
  verbs : CatState
  adjectives : CatState

def initExtractState : ExtractState :=
  ⟨⟨[], []⟩, ⟨[], []⟩, ⟨[], []⟩⟩

/-- The body of the token loop (lines 127-188) for one indexed token:
skip punctuation/space tokens; normalize the lemma
(`token.lemma_.lower().strip()`) and skip if empty; resolve the containing
sentence and skip if none is found or its stripped text is empty (Python's
falsy test at line 149); then dispatch on the POS tag. -/
def process_token (sents : List Sent) (st : ExtractState) (it : Nat × Token) : ExtractState :=
  let t := it.2
  if t.is_punct || t.is_space then st
  else
    let lemma_ := pyStripWS (pyLower t.lemma_)
    if lemma_ = "" then st
    else
      match find_containing_sentence sents it.1 with
      | none => st
      | some sent =>
        if sent = "" then st
        else if t.pos = "NOUN" then
          { st with nouns := add_occurrence st.nouns lemma_ sent t.text }
        else if t.pos = "VERB" then
          { st with verbs := add_occurrence st.verbs lemma_ sent t.text }
        else if t.pos = "ADJ" then
          { st with adjectives := add_occurrence st.adjectives lemma_ sent t.text }
        else st

/-- Python's `sorted` on a list of strings: lexicographic by code points. -/
def sortStrings (l : List String) : List String :=
  l.mergeSort (fun a b => decide (a ≤ b))

/-- The flattening loops at lines 191-213: iterate the occurrence map's
keys in sorted order and emit one `(lemma, phrase)` pair per stored phrase,
in stored order. -/
def cat_occ_list (c : CatState) : List (String × String) :=
  (sortStrings (c.occ.map Prod.fst)).flatMap
    (fun k => ((alookup c.occ k).getD ([], [])).2.map (fun ph => (k, ph)))

/-- The Result record of lines 216-223.  The Python dict keys under which
a lemma is reported (`"noun"`, `"infinitive"`, `"adjective"`) are fixed per
list, so each occurrence entry is the pair (lemma, phrase). -/
structure Result where
  nouns : List String
  verbs : List String
  adjectives : List String
  verb_occurrences : List (String × String)
  noun_occurrences : List (String × String)
  adjective_occurrences : List (String × String)

/-- The state after the whole token loop. -/
def extract_state (doc : Doc) : ExtractState :=
  doc.tokens.enum.foldl (process_token doc.sents) initExtractState

/-- The Extractor `extract_pos_tags` (lines 89-223), with the annotator as
a parameter. -/
def extract_pos_tags (nlp : String → Doc) (text : String) : Result :=
  if text = "" ∨ pyStripWS text = "" then
    ⟨[], [], [], [], [], []⟩
  else
    let st := extract_state (nlp text)
    { nouns := sortStrings st.nouns.lemmas
      verbs := sortStrings st.verbs.lemmas
      adjectives := sortStrings st.adjectives.lemmas
      verb_occurrences := cat_occ_list st.verbs
      noun_occurrences := cat_occ_list st.nouns
      adjective_occurrences := cat_occ_list st.adjectives }

/-! ### Per-category view of the token loop

`process_token` dispatches each token to at most one of the three category
states, the one whose POS tag the token carries.  `token_qual` is the
per-category guard: the data `(lemma, sentence, token text)` handed to
`add_occurrence` when the token passes all the skip conditions of the loop
body and carries this category's tag. -/

/-- The data a token contributes to the category tagged `posTag`, if any. -/
def token_qual (sents : List Sent) (posTag : String) (it : Nat × Token) :
    Option (String × String × String) :=
  let t := it.2
  if t.is_punct || t.is_space then none
  else
    let lemma_ := pyStripWS (pyLower t.lemma_)
    if lemma_ = "" then none
    else
      match find_containing_sentence sents it.1 with
      | none => none
      | some sent =>
        if sent = "" then none
        else if t.pos = posTag then some (lemma_, sent, t.text)
        else none

/-- The effect of one token on one category's state. -/
def cat_step (sents : List Sent) (posTag : String) (c : CatState) (it : Nat × Token) :
    CatState :=
  match token_qual sents posTag it with
  | some (lm, sent, tok) => add_occurrence c lm sent tok
  | none => c

/-- The raw (stripped) sentence texts, in document order with repetitions,
of the tokens that qualify for category `posTag` under lemma `lemma_`. -/
def qual_sentences (sents : List Sent) (posTag lemma_ : String)
    (toks : List (Nat × Token)) : List String :=
  toks.filterMap (fun it =>
    match token_qual sents posTag it with
    | some (lm, sent, _) => if lm = lemma_ then some sent else none
    | none => none)

/-- One step of order-preserving deduplication: append `s` unless seen. -/
def dedupStep (acc : List String) (s : String) : List String :=
  if s ∈ acc then acc else acc ++ [s]

/-- Order-preserving deduplication keeping the first occurrence of each
string — the reference form of "first-seen order, at most once each". -/
def firstDedup (l : List String) : List String :=
  l.foldl dedupStep []

/-! ### The transcript selection of `main` (lines 228-252)

`json.loads` plus `data.get("transcript", "")` are abstracted as a
parameter `parse`: `parse input = some t` models a successful JSON parse
whose transcript field (defaulted to `""`) is `t`; `parse input = none`
models a `JSONDecodeError`, in which case the script falls back to
`input_data.strip()`. -/

inductive MainOutcome where
  | errorNoInput
  | errorEmptyTranscript
  | proceed (transcript : String)
deriving DecidableEq

/-- Lines 232-252 of `main`: empty stream → "No input provided"; then the
transcript is the parsed field, or the stripped raw input on a parse
failure; an empty (falsy) transcript → "Transcript is empty"; otherwise
processing proceeds on the transcript. -/
def main_select_transcript (parse : String → Option String) (input : String) : MainOutcome :=
  if input = "" then .errorNoInput
  else
    let transcript :=
      match parse input with
      | some t => t
      | none => pyStripWS input
    if transcript = "" then .errorEmptyTranscript
    else .proceed transcript

/-! ### Association list lemmas -/

theorem alookup_append {α : Type} (l1 l2 : List (String × α)) (k : String) :
    alookup (l1 ++ l2) k =
      match alookup l1 k with
      | some v => some v
      | none => alookup l2 k := by
  induction l1 with
  | nil => rfl
  | cons e m ih =>
    obtain ⟨k', v⟩ := e
    by_cases h : k' = k
    · simp [alookup, h]
    · simp [alookup, h, ih]

theorem alookup_eq_none_iff {α : Type} (m : List (String × α)) (k : String) :
    alookup m k = none ↔ k ∉ m.map Prod.fst := by
  induction m with
  | nil => simp [alookup]
  | cons e m ih =>
    obtain ⟨k', v⟩ := e
    by_cases h : k' = k
    · simp [alookup, h]
    · simp [alookup, h, ih, Ne.symm h]

theorem alookup_singleton_ne {α : Type} (k0 : String) (v : α) (k : String) (h : k0 ≠ k) :
    alookup [(k0, v)] k = none := by
  simp [alookup, h]

theorem alookup_aupdate_self {α : Type} (f : α → α) (m : List (String × α)) (k : String) :
    alookup (aupdate f m k) k = (alookup m k).map f := by
  induction m with
  | nil => rfl
  | cons e m ih =>
    obtain ⟨k', v⟩ := e
    by_cases h : k' = k
    · simp [alookup, aupdate, h]
    · simp [alookup, aupdate, h, ih]

theorem alookup_aupdate_ne {α : Type} (f : α → α) (m : List (String × α)) (k k' : String)
    (h : k ≠ k') : alookup (aupdate f m k) k' = alookup m k' := by
  induction m with
  | nil => rfl
  | cons e m ih =>
    obtain ⟨k0, v⟩ := e
    by_cases h0 : k0 = k
    · subst h0
      simp [alookup, aupdate, h]
    · by_cases h1 : k0 = k'
      · simp [alookup, aupdate, h0, h1, Ne.symm h]
      · simp [alookup, aupdate, h0, h1, ih]

theorem aupdate_map_fst {α : Type} (f : α → α) (m : List (String × α)) (k : String) :
    (aupdate f m k).map Prod.fst = m.map Prod.fst := by
  induction m with
  | nil => rfl
  | cons e m ih =>
    obtain ⟨k', v⟩ := e
    by_cases h : k' = k
    · simp [aupdate, h]
    · simp [aupdate, h, ih]

/-! ### firstDedup lemmas -/

theorem foldl_dedupStep_nodup : ∀ (l : List String) (acc : List String),
    acc.Nodup → (l.foldl dedupStep acc).Nodup := by
  intro l
  induction l with
  | nil => intro acc h; exact h
  | cons s l ih =>
    intro acc h
    refine ih _ ?_
    by_cases hmem : s ∈ acc
    · simpa [dedupStep, hmem] using h
    · rw [dedupStep, if_neg hmem]
      exact List.nodup_append.mpr
        ⟨h, List.nodup_singleton s, fun x hx hxs => hmem (List.mem_singleton.mp hxs ▸ hx)⟩

theorem firstDedup_nodup (l : List String) : (firstDedup l).Nodup :=
  foldl_dedupStep_nodup l [] List.nodup_nil

theorem firstDedup_append (l : List String) (s : String) :
    firstDedup (l ++ [s]) = dedupStep (firstDedup l) s := by
  simp [firstDedup, List.foldl_append]

theorem foldl_dedupStep_ne_nil : ∀ (l : List String) (acc : List String),
    acc ≠ [] → l.foldl dedupStep acc ≠ [] := by
  intro l
  induction l with
  | nil => intro acc h; exact h
  | cons s l ih =>
    intro acc h
    refine ih _ ?_
    unfold dedupStep
    split
    · exact h
    · simp

theorem firstDedup_ne_nil (l : List String) (h : l ≠ []) : firstDedup l ≠ [] := by
  cases l with
  | nil => exact absurd rfl h
  | cons s l' =>
    have heq : firstDedup (s :: l') = l'.foldl dedupStep [s] := by
      simp [firstDedup, List.foldl_cons, dedupStep]
    rw [heq]
    exact foldl_dedupStep_ne_nil l' [s] (by simp)

/-! ### Characterization of add_occurrence -/

theorem aupdate_append_of_none {α : Type} (f : α → α) (l1 l2 : List (String × α)) (k : String)
    (h : alookup l1 k = none) : aupdate f (l1 ++ l2) k = l1 ++ aupdate f l2 k := by
  induction l1 with
  | nil => rfl
  | cons e m ih =>
    obtain ⟨k', v⟩ := e
    by_cases hk : k' = k
    · simp [alookup, hk] at h
    · simp only [alookup, hk, if_false, if_neg hk] at h ⊢
      simp [aupdate, hk, ih h]

theorem add_occurrence_lemmas (c : CatState) (lm sent tok : String) :
    (add_occurrence c lm sent tok).lemmas =
      if lm ∈ c.lemmas then c.lemmas else c.lemmas ++ [lm] := rfl

theorem add_occurrence_occ (c : CatState) (lm sent tok : String) :
    (add_occurrence c lm sent tok).occ =
      match alookup c.occ lm with
      | none => c.occ ++ [(lm, ([sent], [trim_sentence_with_occurrence sent tok 20]))]
      | some (seen, _) =>
        if sent ∈ seen then c.occ
        else aupdate
          (fun p => (p.1 ++ [sent], p.2 ++ [trim_sentence_with_occurrence sent tok 20]))
          c.occ lm := by
  unfold add_occurrence
  cases hx : alookup c.occ lm with
  | none =>
    have h1 : alookup (c.occ ++ [(lm, (([] : List String), ([] : List String)))]) lm =
        some ([], []) := by
      rw [alookup_append, hx]
      simp [alookup]
    simp only [Option.isSome_none, Bool.false_eq_true, if_false, h1, List.not_mem_nil,
      aupdate_append_of_none _ c.occ _ lm hx]
    simp [aupdate]
  | some p =>
    obtain ⟨seen, ph⟩ := p
    simp [hx]

theorem add_occurrence_lookup_self (c : CatState) (lm sent tok : String) :
    alookup (add_occurrence c lm sent tok).occ lm =
      match alookup c.occ lm with
      | none => some ([sent], [trim_sentence_with_occurrence sent tok 20])
      | some (seen, ph) =>
        if sent ∈ seen then some (seen, ph)
        else some (seen ++ [sent], ph ++ [trim_sentence_with_occurrence sent tok 20]) := by
  rw [add_occurrence_occ]
  cases hx : alookup c.occ lm with
  | none =>
    rw [alookup_append, hx]
    simp [alookup]
  | some p =>
    obtain ⟨seen, ph⟩ := p
    by_cases hs : sent ∈ seen
    · simp [hs, hx]
    · simp only [hs, if_false, if_neg hs]
      rw [alookup_aupdate_self, hx]
      rfl

theorem add_occurrence_lookup_ne (c : CatState) (lm sent tok k : String) (h : lm ≠ k) :
    alookup (add_occurrence c lm sent tok).occ k = alookup c.occ k := by
  rw [add_occurrence_occ]
  cases hx : alookup c.occ lm with
  | none =>
    rw [alookup_append]
    cases hy : alookup c.occ k with
    | none => simp [alookup, h]
    | some v => simp
  | some p =>
    obtain ⟨seen, ph⟩ := p
    by_cases hs : sent ∈ seen
    · simp [hs]
    · simp only [hs, if_false, if_neg hs]
      exact alookup_aupdate_ne _ _ _ _ h

theorem add_occurrence_map_fst (c : CatState) (lm sent tok : String) :
    (add_occurrence c lm sent tok).occ.map Prod.fst =
      if (alookup c.occ lm).isSome then c.occ.map Prod.fst
      else c.occ.map Prod.fst ++ [lm] := by
  rw [add_occurrence_occ]
  cases hx : alookup c.occ lm with
  | none => simp [hx]
  | some p =>
    obtain ⟨seen, ph⟩ := p
    by_cases hs : sent ∈ seen
    · simp [hs, hx]
    · simp only [hs, if_false, if_neg hs, hx, Option.isSome_some, if_true]
      exact aupdate_map_fst _ _ _

/-! ### process_token decomposes into the three category steps -/

theorem process_token_eq (sents : List Sent) (st : ExtractState) (it : Nat × Token) :
    process_token sents st it =
      ⟨cat_step sents "NOUN" st.nouns it,
       cat_step sents "VERB" st.verbs it,
       cat_step sents "ADJ" st.adjectives it⟩ := by
  obtain ⟨cn, cv, ca⟩ := st
  unfold process_token cat_step token_qual
  by_cases h1 : (it.2.is_punct || it.2.is_space) = true
  · simp [h1]
  · simp only [h1, if_false, Bool.false_eq_true]
    by_cases h2 : pyStripWS (pyLower it.2.lemma_) = ""
    · simp [h2]
    · simp only [h2, if_false]
      cases hs : find_containing_sentence sents it.1 with
      | none => simp
      | some sent =>
        by_cases h4 : sent = ""
        · simp [h4]
        · simp only [h4, if_false]
          by_cases hN : it.2.pos = "NOUN"
          · simp [hN]
          · simp only [hN, if_false]
            by_cases hV : it.2.pos = "VERB"
            · simp [hV, hN]
            · simp only [hV, if_false]
              by_cases hA : it.2.pos = "ADJ"
              · simp [hA, hN, hV]
              · simp [hA, hN, hV]

theorem extract_state_eq (doc : Doc) :
    extract_state doc =
      ⟨doc.tokens.enum.foldl (cat_step doc.sents "NOUN") ⟨[], []⟩,
       doc.tokens.enum.foldl (cat_step doc.sents "VERB") ⟨[], []⟩,
       doc.tokens.enum.foldl (cat_step doc.sents "ADJ") ⟨[], []⟩⟩ := by
  suffices h : ∀ (l : List (Nat × Token)) (s : ExtractState),
      l.foldl (process_token doc.sents) s =
        ⟨l.foldl (cat_step doc.sents "NOUN") s.nouns,
         l.foldl (cat_step doc.sents "VERB") s.verbs,
         l.foldl (cat_step doc.sents "ADJ") s.adjectives⟩ by
    exact h doc.tokens.enum initExtractState
  intro l
  induction l with
  | nil => intro s; cases s; rfl
  | cons it rest ih =>
    intro s
    rw [List.foldl_cons, List.foldl_cons, List.foldl_cons, List.foldl_cons, ih,
      process_token_eq]

/-! ### qual_sentences lemmas -/

theorem qual_sentences_append (sents : List Sent) (posTag lm : String)
    (l1 l2 : List (Nat × Token)) :
    qual_sentences sents posTag lm (l1 ++ l2) =
      qual_sentences sents posTag lm l1 ++ qual_sentences sents posTag lm l2 :=
  List.filterMap_append _ _ _

theorem qual_sentences_singleton_none (sents : List Sent) (posTag lm : String)
    (it : Nat × Token) (h : token_qual sents posTag it = none) :
    qual_sentences sents posTag lm [it] = [] := by
  simp [qual_sentences, h]

theorem qual_sentences_singleton_some (sents : List Sent) (posTag : String) (it : Nat × Token)
    (lm sent tok : String) (h : token_qual sents posTag it = some (lm, sent, tok)) (k : String) :
    qual_sentences sents posTag k [it] = if lm = k then [sent] else [] := by
  by_cases hk : lm = k <;> simp [qual_sentences, h, hk]

/-! ### The per-category loop invariant -/

/-- Invariant of one category's state after processing the token prefix
`pref`: the map keys and the lemma set are duplicate-free and coincide;
a lemma has an entry exactly when some processed token qualified for it;
and each entry stores exactly the first-seen-order deduplication of the
qualifying raw sentences, paired one-to-one with trimmed phrases (one
phrase per distinct raw sentence, built by the Trimmer from that sentence
and some token text). -/
structure CatInv (sents : List Sent) (posTag : String) (pref : List (Nat × Token))
    (c : CatState) : Prop where
  keys_nodup : (c.occ.map Prod.fst).Nodup
  lemmas_nodup : c.lemmas.Nodup
  mem_lemmas_iff : ∀ k, k ∈ c.lemmas ↔ (alookup c.occ k).isSome
  none_qual : ∀ k, alookup c.occ k = none → qual_sentences sents posTag k pref = []
  entry_spec : ∀ k seen ph, alookup c.occ k = some (seen, ph) →
    seen = firstDedup (qual_sentences sents posTag k pref) ∧
    qual_sentences sents posTag k pref ≠ [] ∧
    ∃ toks, toks.length = seen.length ∧
      ph = List.zipWith (fun s t => trim_sentence_with_occurrence s t 20) seen toks

theorem catInv_init (sents : List Sent) (posTag : String) :
    CatInv sents posTag [] ⟨[], []⟩ := by
  refine ⟨by simp, by simp, ?_, ?_, ?_⟩
  · intro k; simp [alookup]
  · intro k _; rfl
  · intro k seen ph hk; simp [alookup] at hk

theorem catInv_step (sents : List Sent) (posTag : String) (pref : List (Nat × Token))
    (c : CatState) (it : Nat × Token) (h : CatInv sents posTag pref c) :
    CatInv sents posTag (pref ++ [it]) (cat_step sents posTag c it) := by
  cases hq : token_qual sents posTag it with
  | none =>
    have hqk : ∀ k, qual_sentences sents posTag k (pref ++ [it]) =
        qual_sentences sents posTag k pref := by
      intro k
      rw [qual_sentences_append, qual_sentences_singleton_none sents posTag k it hq,
        List.append_nil]
    unfold cat_step
    rw [hq]
    exact ⟨h.keys_nodup, h.lemmas_nodup, h.mem_lemmas_iff,
      fun k hk => by rw [hqk k]; exact h.none_qual k hk,
      fun k seen ph hk => by rw [hqk k]; exact h.entry_spec k seen ph hk⟩
  | some q =>
    obtain ⟨lm, sent, tok⟩ := q
    unfold cat_step
    rw [hq]
    have hqk_ne : ∀ k, k ≠ lm → qual_sentences sents posTag k (pref ++ [it]) =
        qual_sentences sents posTag k pref := by
      intro k hk
      rw [qual_sentences_append, qual_sentences_singleton_some sents posTag it lm sent tok hq k,
        if_neg (Ne.symm hk), List.append_nil]
    have hqk_lm : qual_sentences sents posTag lm (pref ++ [it]) =
        qual_sentences sents posTag lm pref ++ [sent] := by
      rw [qual_sentences_append, qual_sentences_singleton_some sents posTag it lm sent tok hq lm,
        if_pos rfl]
    refine ⟨?_, ?_, ?_, ?_, ?_⟩
    · rw [add_occurrence_map_fst]
      split
      · exact h.keys_nodup
      · rename_i hns
        have hlm : lm ∉ c.occ.map Prod.fst := by
          rw [← alookup_eq_none_iff]
          cases hx : alookup c.occ lm
          · rfl
          · simp [hx] at hns
        exact List.nodup_append.mpr
          ⟨h.keys_nodup, List.nodup_singleton lm,
            fun x hx hxs => hlm (List.mem_singleton.mp hxs ▸ hx)⟩
    · rw [add_occurrence_lemmas]
      split
      · exact h.lemmas_nodup
      · rename_i hlm
        exact List.nodup_append.mpr
          ⟨h.lemmas_nodup, List.nodup_singleton lm,
            fun x hx hxs => hlm (List.mem_singleton.mp hxs ▸ hx)⟩
    · intro k
      rw [add_occurrence_lemmas]
      by_cases hk : k = lm
      · subst hk
        refine iff_of_true ?_ ?_
        · split
          · assumption
          · simp
        · rw [add_occurrence_lookup_self]
          cases hx : alookup c.occ k with
          | none => rfl
          | some p =>
            obtain ⟨seen, ph⟩ := p
            by_cases hs : sent ∈ seen <;> simp [hs]
      · have hmem : (k ∈ if lm ∈ c.lemmas then c.lemmas else c.lemmas ++ [lm]) ↔
            k ∈ c.lemmas := by
          split
          · exact Iff.rfl
          · simp [hk]
        rw [hmem, add_occurrence_lookup_ne c lm sent tok k (Ne.symm hk)]
        exact h.mem_lemmas_iff k
    · intro k hk
      have hklm : k ≠ lm := by
        rintro rfl
        rw [add_occurrence_lookup_self] at hk
        cases hx : alookup c.occ k with
        | none => rw [hx] at hk; simp at hk
        | some p =>
          obtain ⟨seen, ph⟩ := p
          rw [hx] at hk
          by_cases hs : sent ∈ seen <;> simp [hs] at hk
      rw [add_occurrence_lookup_ne c lm sent tok k (Ne.symm hklm)] at hk
      rw [hqk_ne k hklm]
      exact h.none_qual k hk
    · intro k seen' ph' hk
      by_cases hklm : k = lm
      · subst hklm
        rw [add_occurrence_lookup_self] at hk
        rw [hqk_lm]
        cases hx : alookup c.occ k with
        | none =>
          rw [hx] at hk
          simp only [Option.some.injEq, Prod.mk.injEq] at hk
          obtain ⟨h1, h2⟩ := hk
          subst h1; subst h2
          have hq0 : qual_sentences sents posTag k pref = [] := h.none_qual k hx
          rw [hq0]
          refine ⟨by simp [firstDedup, dedupStep], by simp, [tok], by simp, by simp⟩
        | some p =>
          obtain ⟨seen, ph⟩ := p
          rw [hx] at hk
          dsimp only at hk
          obtain ⟨hfd, hqne, toks0, hlen, hzip⟩ := h.entry_spec k seen ph hx
          by_cases hs : sent ∈ seen
          · rw [if_pos hs] at hk
            simp only [Option.some.injEq, Prod.mk.injEq] at hk
            obtain ⟨h1, h2⟩ := hk
            subst h1; subst h2
            have : firstDedup (qual_sentences sents posTag k pref ++ [sent]) =
                firstDedup (qual_sentences sents posTag k pref) := by
              rw [firstDedup_append, dedupStep, if_pos (hfd ▸ hs)]
            rw [this]
            exact ⟨hfd, by simp, toks0, hlen, hzip⟩
          · rw [if_neg hs] at hk
            simp only [Option.some.injEq, Prod.mk.injEq] at hk
            obtain ⟨h1, h2⟩ := hk
            subst h1; subst h2
            have hfd' : firstDedup (qual_sentences sents posTag k pref ++ [sent]) =
                seen ++ [sent] := by
              rw [firstDedup_append, dedupStep, if_neg (hfd ▸ hs), hfd]
            refine ⟨hfd'.symm ▸ rfl, by simp, toks0 ++ [tok], by simp [hlen], ?_⟩
            rw [List.zipWith_append _ _ _ _ _ hlen.symm, ← hzip]
            rfl
      · rw [add_occurrence_lookup_ne c lm sent tok k (Ne.symm hklm)] at hk
        rw [hqk_ne k hklm]
        exact h.entry_spec k seen' ph' hk

theorem catInv_foldl (sents : List Sent) (posTag : String) :
    ∀ (l pref : List (Nat × Token)) (c : CatState), CatInv sents posTag pref c →
      CatInv sents posTag (pref ++ l) (l.foldl (cat_step sents posTag) c) := by
  intro l
  induction l with
  | nil => intro pref c h; simpa using h
  | cons it rest ih =>
    intro pref c h
    have h1 := catInv_step sents posTag pref c it h
    have h2 := ih (pref ++ [it]) _ h1
    simpa using h2

/-- The invariant holds of each final category state. -/
theorem catInv_extract (sents : List Sent) (posTag : String) (toks : List (Nat × Token)) :
    CatInv sents posTag toks (toks.foldl (cat_step sents posTag) ⟨[], []⟩) := by
  have := catInv_foldl sents posTag toks [] ⟨[], []⟩ (catInv_init sents posTag)
  simpa using this

/-! ### Sorting and flattening lemmas -/

theorem sortStrings_perm (l : List String) : (sortStrings l).Perm l :=
  List.mergeSort_perm l _

theorem sortStrings_mem (l : List String) (a : String) : a ∈ sortStrings l ↔ a ∈ l :=
  (sortStrings_perm l).mem_iff

theorem sortStrings_nodup (l : List String) (h : l.Nodup) : (sortStrings l).Nodup :=
  ((sortStrings_perm l).nodup_iff).mpr h

theorem sortStrings_sorted (l : List String) : (sortStrings l).Sorted (· ≤ ·) := by
  have h : List.Pairwise (fun a b : String => decide (a ≤ b) = true)
      (l.mergeSort (fun a b => decide (a ≤ b))) :=
    List.sorted_mergeSort
      (fun a b c hab hbc => by
        simp only [decide_eq_true_eq] at hab hbc ⊢
        exact le_trans hab hbc)
      (fun a b => by simpa using le_total a b)
      l
  exact h.imp (fun hab => by simpa using hab)

theorem sortStrings_sorted_lt (l : List String) (h : l.Nodup) :
    (sortStrings l).Sorted (· < ·) := by
  have h1 := sortStrings_sorted l
  have h2 := sortStrings_nodup l h
  exact (h1.and h2).imp (fun hab => lt_of_le_of_ne hab.1 hab.2)

theorem sorted_flatMap_replicate (ks : List String) (n : String → Nat)
    (h : ks.Sorted (· < ·)) :
    (ks.flatMap (fun k => List.replicate (n k) k)).Sorted (· ≤ ·) := by
  induction ks with
  | nil => exact List.sorted_nil
  | cons k rest ih =>
    rw [List.flatMap_cons]
    rcases List.pairwise_cons.mp h with ⟨hk, hrest⟩
    refine List.pairwise_append.mpr ⟨?_, ih hrest, ?_⟩
    · exact List.pairwise_replicate.mpr (Or.inr le_rfl)
    · intro x hx y hy
      rcases List.mem_flatMap.mp hy with ⟨k', hk', hy'⟩
      rw [List.eq_of_mem_replicate hx, List.eq_of_mem_replicate hy']
      exact le_of_lt (hk k' hk')

theorem map_fst_flatMap_pairs (ks : List String) (g : String → List String) :
    ((ks.flatMap (fun k => (g k).map (fun ph => (k, ph)))).map Prod.fst) =
      ks.flatMap (fun k => List.replicate (g k).length k) := by
  induction ks with
  | nil => rfl
  | cons k rest ih =>
    rw [List.flatMap_cons, List.flatMap_cons, List.map_append, ih]
    congr 1
    rw [List.map_map]
    exact List.map_const (g k) k

theorem filter_flatMap_pairs (ks : List String) (g : String → List String) (k : String)
    (hnd : ks.Nodup) :
    (((ks.flatMap (fun x => (g x).map (fun ph => (x, ph)))).filter
        (fun p => p.1 = k)).map Prod.snd) =
      if k ∈ ks then g k else [] := by
  induction ks with
  | nil => simp
  | cons x rest ih =>
    rw [List.flatMap_cons, List.filter_append, List.map_append]
    obtain ⟨hx_rest, hrest⟩ := List.nodup_cons.mp hnd
    by_cases hx : x = k
    · subst hx
      have h1 : ((g x).map (fun ph => (x, ph))).filter (fun p => p.1 = x) =
          (g x).map (fun ph => (x, ph)) := by
        refine List.filter_eq_self.mpr (fun p hp => ?_)
        rcases List.mem_map.mp hp with ⟨ph, _, rfl⟩
        simp
      rw [h1, ih hrest, if_neg hx_rest, if_pos (List.mem_cons_self x rest)]
      simp [List.map_map]
    · have h1 : ((g x).map (fun ph => (x, ph))).filter (fun p => p.1 = k) = [] := by
        refine List.filter_eq_nil_iff.mpr (fun p hp => ?_)
        rcases List.mem_map.mp hp with ⟨ph, _, rfl⟩
        simp [hx]
      rw [h1, ih hrest]
      simp only [List.map_nil, List.nil_append]
      by_cases hk : k ∈ rest
      · rw [if_pos hk, if_pos (List.mem_cons_of_mem x hk)]
      · rw [if_neg hk, if_neg (fun hm => by
          rcases List.mem_cons.mp hm with h' | h'
          · exact hx h'.symm
          · exact hk h')]

theorem alookup_isSome_iff {α : Type} (m : List (String × α)) (k : String) :
    (alookup m k).isSome ↔ k ∈ m.map Prod.fst := by
  rw [Option.isSome_iff_ne_none, Ne, alookup_eq_none_iff]
  exact not_not

/-! ### Consequences of the invariant for the flattened lists -/

theorem CatInv.ph_ne_nil {sents : List Sent} {posTag : String} {pref : List (Nat × Token)}
    {c : CatState} (h : CatInv sents posTag pref c) :
    ∀ k seen ph, alookup c.occ k = some (seen, ph) → ph ≠ [] := by
  intro k seen ph hk hnil
  obtain ⟨hfd, hqne, toks, hlen, hzip⟩ := h.entry_spec k seen ph hk
  have hseen : seen ≠ [] := hfd ▸ firstDedup_ne_nil _ hqne
  have h0 := hnil ▸ hzip
  have hlen0 := congrArg List.length h0
  simp only [List.length_nil, List.length_zipWith, hlen, Nat.min_self] at hlen0
  exact hseen (List.length_eq_zero.mp hlen0.symm)

theorem cat_occ_list_sorted_fst (c : CatState) (hk : (c.occ.map Prod.fst).Nodup) :
    ((cat_occ_list c).map Prod.fst).Sorted (· ≤ ·) := by
  unfold cat_occ_list
  rw [map_fst_flatMap_pairs]
  exact sorted_flatMap_replicate _ _ (sortStrings_sorted_lt _ hk)

theorem cat_occ_list_exists_iff (c : CatState)
    (hne : ∀ k seen ph, alookup c.occ k = some (seen, ph) → ph ≠ []) (k : String) :
    (∃ p ∈ cat_occ_list c, p.1 = k) ↔ (alookup c.occ k).isSome := by
  constructor
  · rintro ⟨p, hp, rfl⟩
    rcases List.mem_flatMap.mp hp with ⟨k', hk', hpk⟩
    rcases List.mem_map.mp hpk with ⟨ph, _, rfl⟩
    exact (alookup_isSome_iff _ _).mpr ((sortStrings_mem _ _).mp hk')
  · intro hs
    cases hx : alookup c.occ k with
    | none => rw [hx] at hs; simp at hs
    | some p =>
      obtain ⟨seen, ph⟩ := p
      have hkk : k ∈ sortStrings (c.occ.map Prod.fst) :=
        (sortStrings_mem _ _).mpr ((alookup_isSome_iff _ _).mp (by simp [hx]))
      cases hph : ph with
      | nil => exact absurd hph (hne k seen ph hx)
      | cons ph0 rest =>
        refine ⟨(k, ph0), ?_, rfl⟩
        refine List.mem_flatMap.mpr ⟨k, hkk, ?_⟩
        rw [hx]
        simp [hph]

theorem catInv_phrases (sents : List Sent) (posTag : String) (pref : List (Nat × Token))
    (c : CatState) (inv : CatInv sents posTag pref c) (k : String) :
    ∃ toks, toks.length = (firstDedup (qual_sentences sents posTag k pref)).length ∧
      (((cat_occ_list c).filter (fun p => p.1 = k)).map Prod.snd) =
        List.zipWith (fun s t => trim_sentence_with_occurrence s t 20)
          (firstDedup (qual_sentences sents posTag k pref)) toks := by
  have hfilter := filter_flatMap_pairs (sortStrings (c.occ.map Prod.fst))
    (fun x => ((alookup c.occ x).getD ([], [])).2) k (sortStrings_nodup _ inv.keys_nodup)
  cases hx : alookup c.occ k with
  | none =>
    have hnotmem : k ∉ sortStrings (c.occ.map Prod.fst) := by
      rw [sortStrings_mem]
      exact (alookup_eq_none_iff _ _).mp hx
    unfold cat_occ_list
    rw [hfilter, if_neg hnotmem, inv.none_qual k hx]
    exact ⟨[], rfl, rfl⟩
  | some p =>
    obtain ⟨seen, ph⟩ := p
    obtain ⟨hfd, hqne, toks0, hlen, hzip⟩ := inv.entry_spec k seen ph hx
    have hmem : k ∈ sortStrings (c.occ.map Prod.fst) := by
      rw [sortStrings_mem]
      exact (alookup_isSome_iff _ _).mp (by simp [hx])
    unfold cat_occ_list
    rw [hfilter, if_pos hmem]
    dsimp only
    rw [hx]
    simp only [Option.getD_some]
    exact ⟨toks0, by rw [← hfd]; exact hlen, by rw [← hfd]; exact hzip⟩

/-! ### Unfolding extract_pos_tags in the non-blank case -/

theorem extract_pos_tags_of_ne (nlp : String → Doc) (text : String)
    (h : ¬ (text = "" ∨ pyStripWS text = "")) :
    extract_pos_tags nlp text =
      { nouns := sortStrings (extract_state (nlp text)).nouns.lemmas
        verbs := sortStrings (extract_state (nlp text)).verbs.lemmas
        adjectives := sortStrings (extract_state (nlp text)).adjectives.lemmas
        verb_occurrences := cat_occ_list (extract_state (nlp text)).verbs
        noun_occurrences := cat_occ_list (extract_state (nlp text)).nouns
        adjective_occurrences := cat_occ_list (extract_state (nlp text)).adjectives } := by
  unfold extract_pos_tags
  rw [if_neg h]

/-! ### Claims C6-C10 -/

/-- Claim C6 (counterexample): on the non-empty, non-JSON input
`" Berlin ist gross. "` (a parser that rejects it models the
`JSONDecodeError` branch), `main` proceeds with `"Berlin ist gross."` —
the raw input with its surrounding whitespace stripped — not with the raw
input verbatim, because line 245 is `transcript = input_data.strip()`. -/
theorem main_not_verbatim :
    main_select_transcript (fun _ => none) " Berlin ist gross. " =
      MainOutcome.proceed "Berlin ist gross." ∧
    "Berlin ist gross." ≠ " Berlin ist gross. " := by
  constructor
  · decide
  · decide

/-- Claim C6 (amended): on any non-empty input stream whose content is not
valid JSON, `main` takes the raw input stripped of leading and trailing
whitespace as the transcript; it proceeds normally when that stripped text
is non-empty, and reports the "Transcript is empty" error when the input
was all whitespace. -/
theorem main_invalid_json_strips (parse : String → Option String) (input : String)
    (hne : input ≠ "") (hinv : parse input = none) :
    main_select_transcript parse input =
      if pyStripWS input = "" then MainOutcome.errorEmptyTranscript
      else MainOutcome.proceed (pyStripWS input) := by
  unfold main_select_transcript
  rw [if_neg hne]
  simp only [hinv]

theorem main_invalid_json_strips_witness :
    (" x " : String) ≠ "" ∧
    (fun (_ : String) => (none : Option String)) " x " = none ∧
    main_select_transcript (fun _ => none) " x " =
      (if pyStripWS " x " = "" then MainOutcome.errorEmptyTranscript
       else MainOutcome.proceed (pyStripWS " x ")) :=
  ⟨by decide, rfl, main_invalid_json_strips (fun _ => none) " x " (by decide) rfl⟩

/-- Claim C7: on empty or all-whitespace text, `extract_pos_tags` returns
the Result whose six fields are all empty sequences, without consulting the
annotator and without error. -/
theorem extract_empty_text (nlp : String → Doc) (text : String) (h : pyStripWS text = "") :
    extract_pos_tags nlp text = ⟨[], [], [], [], [], []⟩ := by
  unfold extract_pos_tags
  rw [if_pos (Or.inr h)]

theorem extract_empty_text_witness :
    pyStripWS "  " = "" ∧
    extract_pos_tags (fun _ => ⟨[], []⟩) "  " = ⟨[], [], [], [], [], []⟩ :=
  ⟨by decide, extract_empty_text (fun _ => ⟨[], []⟩) "  " (by decide)⟩

/-- Claim C8: in each POS category, the phrases recorded under one lemma
are exactly one Trimmer output per distinct raw containing-sentence text,
in first-seen document order: the list of phrases filed under `lm` in the
flattened occurrence list is `zipWith trim` of the duplicate-free
first-seen-order list of qualifying raw sentences against some list of
token texts. -/
theorem extract_occurrences_first_seen (nlp : String → Doc) (text : String)
    (h : pyStripWS text ≠ "") (lm : String) :
    ((firstDedup (qual_sentences (nlp text).sents "NOUN" lm (nlp text).tokens.enum)).Nodup ∧
      ∃ toks, toks.length =
          (firstDedup (qual_sentences (nlp text).sents "NOUN" lm (nlp text).tokens.enum)).length ∧
        (((extract_pos_tags nlp text).noun_occurrences.filter
            (fun p => p.1 = lm)).map Prod.snd) =
          List.zipWith (fun s t => trim_sentence_with_occurrence s t 20)
            (firstDedup (qual_sentences (nlp text).sents "NOUN" lm (nlp text).tokens.enum))
            toks) ∧
    ((firstDedup (qual_sentences (nlp text).sents "VERB" lm (nlp text).tokens.enum)).Nodup ∧
      ∃ toks, toks.length =
          (firstDedup (qual_sentences (nlp text).sents "VERB" lm (nlp text).tokens.enum)).length ∧
        (((extract_pos_tags nlp text).verb_occurrences.filter
            (fun p => p.1 = lm)).map Prod.snd) =
          List.zipWith (fun s t => trim_sentence_with_occurrence s t 20)
            (firstDedup (qual_sentences (nlp text).sents "VERB" lm (nlp text).tokens.enum))
            toks) ∧
    ((firstDedup (qual_sentences (nlp text).sents "ADJ" lm (nlp text).tokens.enum)).Nodup ∧
      ∃ toks, toks.length =
          (firstDedup (qual_sentences (nlp text).sents "ADJ" lm (nlp text).tokens.enum)).length ∧
        (((extract_pos_tags nlp text).adjective_occurrences.filter
            (fun p => p.1 = lm)).map Prod.snd) =
          List.zipWith (fun s t => trim_sentence_with_occurrence s t 20)
            (firstDedup (qual_sentences (nlp text).sents "ADJ" lm (nlp text).tokens.enum))
            toks) := by
  have hcond : ¬ (text = "" ∨ pyStripWS text = "") := by
    rintro (rfl | hs)
    · exact h (by decide)
    · exact h hs
  rw [extract_pos_tags_of_ne nlp text hcond, extract_state_eq]
  have hN := catInv_extract (nlp text).sents "NOUN" (nlp text).tokens.enum
  have hV := catInv_extract (nlp text).sents "VERB" (nlp text).tokens.enum
  have hA := catInv_extract (nlp text).sents "ADJ" (nlp text).tokens.enum
  exact ⟨⟨firstDedup_nodup _, catInv_phrases _ _ _ _ hN lm⟩,
    ⟨firstDedup_nodup _, catInv_phrases _ _ _ _ hV lm⟩,
    ⟨firstDedup_nodup _, catInv_phrases _ _ _ _ hA lm⟩⟩

theorem extract_occurrences_first_seen_witness :
    pyStripWS "Der Hund" ≠ "" ∧
    (((firstDedup (qual_sentences [] "NOUN" "hund" [])).Nodup ∧
      ∃ toks, toks.length = (firstDedup (qual_sentences [] "NOUN" "hund" [])).length ∧
        (((extract_pos_tags (fun _ => ⟨[], []⟩) "Der Hund").noun_occurrences.filter
            (fun p => p.1 = "hund")).map Prod.snd) =
          List.zipWith (fun s t => trim_sentence_with_occurrence s t 20)
            (firstDedup (qual_sentences [] "NOUN" "hund" [])) toks) ∧
    ((firstDedup (qual_sentences [] "VERB" "hund" [])).Nodup ∧
      ∃ toks, toks.length = (firstDedup (qual_sentences [] "VERB" "hund" [])).length ∧
        (((extract_pos_tags (fun _ => ⟨[], []⟩) "Der Hund").verb_occurrences.filter
            (fun p => p.1 = "hund")).map Prod.snd) =
          List.zipWith (fun s t => trim_sentence_with_occurrence s t 20)
            (firstDedup (qual_sentences [] "VERB" "hund" [])) toks) ∧
    ((firstDedup (qual_sentences [] "ADJ" "hund" [])).Nodup ∧
      ∃ toks, toks.length = (firstDedup (qual_sentences [] "ADJ" "hund" [])).length ∧
        (((extract_pos_tags (fun _ => ⟨[], []⟩) "Der Hund").adjective_occurrences.filter
            (fun p => p.1 = "hund")).map Prod.snd) =
          List.zipWith (fun s t => trim_sentence_with_occurrence s t 20)
            (firstDedup (qual_sentences [] "ADJ" "hund" [])) toks)) :=
  ⟨by decide,
    extract_occurrences_first_seen (fun _ => ⟨[], []⟩) "Der Hund" (by decide) "hund"⟩

/-- Claim C9: the three lemma sequences of the Result are strictly
lexicographically sorted (hence duplicate-free), and each flattened
occurrence list is grouped by ascending lemma: its sequence of first
components is non-decreasing, so all pairs of one lemma are contiguous and
the lemmas appear in ascending order. -/
theorem extract_pos_lists_sorted (nlp : String → Doc) (text : String) :
    (extract_pos_tags nlp text).nouns.Sorted (· < ·) ∧
    (extract_pos_tags nlp text).verbs.Sorted (· < ·) ∧
    (extract_pos_tags nlp text).adjectives.Sorted (· < ·) ∧
    ((extract_pos_tags nlp text).noun_occurrences.map Prod.fst).Sorted (· ≤ ·) ∧
    ((extract_pos_tags nlp text).verb_occurrences.map Prod.fst).Sorted (· ≤ ·) ∧
    ((extract_pos_tags nlp text).adjective_occurrences.map Prod.fst).Sorted (· ≤ ·) := by
  by_cases h : text = "" ∨ pyStripWS text = ""
  · unfold extract_pos_tags
    rw [if_pos h]
    exact ⟨List.sorted_nil, List.sorted_nil, List.sorted_nil,
      List.sorted_nil, List.sorted_nil, List.sorted_nil⟩
  · rw [extract_pos_tags_of_ne nlp text h, extract_state_eq]
    have hN := catInv_extract (nlp text).sents "NOUN" (nlp text).tokens.enum
    have hV := catInv_extract (nlp text).sents "VERB" (nlp text).tokens.enum
    have hA := catInv_extract (nlp text).sents "ADJ" (nlp text).tokens.enum
    exact ⟨sortStrings_sorted_lt _ hN.lemmas_nodup,
      sortStrings_sorted_lt _ hV.lemmas_nodup,
      sortStrings_sorted_lt _ hA.lemmas_nodup,
      cat_occ_list_sorted_fst _ hN.keys_nodup,
      cat_occ_list_sorted_fst _ hV.keys_nodup,
      cat_occ_list_sorted_fst _ hA.keys_nodup⟩

/-- Claim C10: a lemma appears in a POS category's lemma sequence exactly
when at least one (lemma, phrase) pair for it appears in that category's
occurrence list: no lemma without an example phrase, no phrase under an
unlisted lemma. -/
theorem extract_lemma_iff_occurrence (nlp : String → Doc) (text : String) (k : String) :
    (k ∈ (extract_pos_tags nlp text).nouns ↔
      ∃ p ∈ (extract_pos_tags nlp text).noun_occurrences, p.1 = k) ∧
    (k ∈ (extract_pos_tags nlp text).verbs ↔
      ∃ p ∈ (extract_pos_tags nlp text).verb_occurrences, p.1 = k) ∧
    (k ∈ (extract_pos_tags nlp text).adjectives ↔
      ∃ p ∈ (extract_pos_tags nlp text).adjective_occurrences, p.1 = k) := by
  by_cases h : text = "" ∨ pyStripWS text = ""
  · unfold extract_pos_tags
    rw [if_pos h]
    simp
  · rw [extract_pos_tags_of_ne nlp text h, extract_state_eq]
    have hN := catInv_extract (nlp text).sents "NOUN" (nlp text).tokens.enum
    have hV := catInv_extract (nlp text).sents "VERB" (nlp text).tokens.enum
    have hA := catInv_extract (nlp text).sents "ADJ" (nlp text).tokens.enum
    exact ⟨((sortStrings_mem _ _).trans (hN.mem_lemmas_iff k)).trans
        (cat_occ_list_exists_iff _ hN.ph_ne_nil k).symm,
      ((sortStrings_mem _ _).trans (hV.mem_lemmas_iff k)).trans
        (cat_occ_list_exists_iff _ hV.ph_ne_nil k).symm,
      ((sortStrings_mem _ _).trans (hA.mem_lemmas_iff k)).trans
        (cat_occ_list_exists_iff _ hA.ph_ne_nil k).symm⟩

end SpacyLLM
